import Mathlib

/-!
Verification of the shuttlecock price-tracker (`src/scraper.py`).

The program is a linear pipeline: fetch a catalog page, parse product
entries into a snapshot (a Python dict mapping product name to a price
record), diff against the previously stored snapshot, email the changes,
and persist the new snapshot.

Embedding conventions:
* A Python dict is embedded as an insertion-ordered association list
  `List (String × α)`; Python dict-key uniqueness appears as the
  hypothesis `(l.map Prod.fst).Nodup` where a result needs it.
  `alookup` is `d[k]` / `k in d`, and `dictInsert` is `d[k] = v`
  (update in place keeps the original position, append otherwise),
  exactly the CPython dict semantics the script relies on.
* Python floats are embedded as `ℚ`; the prices handled by the script
  are whole-cent decimal values, which floats compare exactly.
* A record with a possibly-missing price carries `Option ℚ` fields
  (`none` = Python `None`).
* The change descriptions the script appends to `changes` are formatted
  strings; they are embedded as the inductive `ChangeRecord` carrying
  exactly the data interpolated into each f-string.
-/

/-! ## Definitions: the embedding of the program -/

/-- Association-list lookup, the embedding of Python `d[k]` / `d.get(k)` /
`k in d` on dicts (a dict holds at most one binding per key). -/
def alookup {α : Type} (k : String) : List (String × α) → Option α
  | [] => none
  | (k', v) :: rest => if k' = k then some v else alookup k rest

/-- Python `d[k] = v` on an insertion-ordered dict: overwriting an existing
key keeps its position, a fresh key is appended at the end. -/
def dictInsert {α : Type} (k : String) (v : α) : List (String × α) → List (String × α)
  | [] => [(k, v)]
  | (k', v') :: rest =>
      if k' = k then (k, v) :: rest else (k', v') :: dictInsert k v rest

/-- One product's pricing at fetch time (`scraper.py` lines 80–85 store
these four fields keyed by the product name). -/
structure PriceRecord where
  name : String
  regular_price : Option ℚ
  sale_price : Option ℚ
  effective_price : Option ℚ
  deriving DecidableEq, Repr

/-- A snapshot: insertion-ordered mapping from product name to record. -/
abbrev Snapshot := List (String × PriceRecord)

/-- Direction of a price change: `"📈 UP" if diff > 0 else "📉 DOWN"`. -/
inductive Direction where
  | Up
  | Down
  deriving DecidableEq, Repr

/-- One line appended to `changes` by `compare_data`, carrying the data
interpolated into the corresponding f-string. -/
inductive ChangeRecord where
  | New (name : String) (effective_price : Option ℚ)
  | Removed (name : String)
  | PriceChanged (name : String) (old_price new_price : ℚ) (direction : Direction)
  deriving DecidableEq, Repr

/-- Loop 1 body of `compare_data` (lines 99–101): a name of `new_data`
absent from `old_data` yields a NEW line. -/
def newFor (old_data : Snapshot) (p : String × PriceRecord) : Option ChangeRecord :=
  match alookup p.1 old_data with
  | none => some (ChangeRecord.New p.1 p.2.effective_price)
  | some _ => none

/-- Loop 2 body of `compare_data` (lines 104–106): a name of `old_data`
absent from `new_data` yields a REMOVED line. -/
def removedFor (new_data : Snapshot) (p : String × PriceRecord) : Option ChangeRecord :=
  match alookup p.1 new_data with
  | none => some (ChangeRecord.Removed p.1)
  | some _ => none

/-- Loop 3 body of `compare_data` (lines 109–119): for a shared name,
compare the two `effective_price` values when both are non-null; on
inequality emit a price change whose direction is UP iff
`new_price - old_price > 0`. -/
def changeFor (old_data : Snapshot) (p : String × PriceRecord) : Option ChangeRecord :=
  match alookup p.1 old_data with
  | none => none
  | some od =>
      match od.effective_price, p.2.effective_price with
      | some old_price, some new_price =>
          if old_price ≠ new_price then
            some (ChangeRecord.PriceChanged p.1 old_price new_price
              (if new_price - old_price > 0 then Direction.Up else Direction.Down))
          else none
      | _, _ => none

/-- The function `compare_data(old_data, new_data)` (lines 95–121): the three loops
append to one `changes` list, so the result is the NEW lines in
`new_data` order, then the REMOVED lines in `old_data` order, then the
price-change lines in `new_data` order. -/
def compare_data (old_data new_data : Snapshot) : List ChangeRecord :=
  new_data.filterMap (newFor old_data)
    ++ old_data.filterMap (removedFor new_data)
    ++ new_data.filterMap (changeFor old_data)

/-- Class of a change line: produced by loop 1 (NEW). -/
def isNewRec : ChangeRecord → Bool
  | ChangeRecord.New _ _ => true
  | _ => false

/-- Class of a change line: produced by loop 2 (REMOVED). -/
def isRemovedRec : ChangeRecord → Bool
  | ChangeRecord.Removed _ => true
  | _ => false

/-- Class of a change line: produced by loop 3 (price change). -/
def isChangedRec : ChangeRecord → Bool
  | ChangeRecord.PriceChanged _ _ _ _ => true
  | _ => false

/-- The product name a change line is about. -/
def changeName : ChangeRecord → String
  | ChangeRecord.New n _ => n
  | ChangeRecord.Removed n => n
  | ChangeRecord.PriceChanged n _ _ _ => n

/-- Sample snapshot used by the concrete witnesses. -/
def sampleOld : Snapshot :=
  [("Yonex AS-50", ⟨"Yonex AS-50", some 25, none, some 25⟩)]

/-- Second sample snapshot used by the concrete witnesses. -/
def sampleNew : Snapshot :=
  [("Yonex AS-50", ⟨"Yonex AS-50", some 25, some 20, some 20⟩),
   ("Victor Gold", ⟨"Victor Gold", some 15, none, some 15⟩)]

/-! ### The catalog fetcher (lines 21–87)

The HTTP fetch and DOM parsing are external capabilities; the embedding
starts from the list of direct child entries of the product container.
An `Item` records, for one entry, the stripped text of each element the
script selects (`none` when `select_one` finds no such element). A run
whose HTTP request fails or whose container is missing yields an empty
snapshot, which is the `[]` case of `main'`'s `fetched` argument. -/
structure Item where
  name_element : Option String
  sale_element : Option String
  reg_element : Option String
  reg_element_gen : Option String
  deriving DecidableEq, Repr

/-- Worker for `removeSub`: while `skip > 0` the character belongs to an
occurrence already matched and is dropped; at `skip = 0` a new occurrence
of `pat` starting here is matched (and its remaining `pat.length - 1`
characters scheduled for dropping) or the character is kept. -/
def removeSubGo (pat : List Char) : ℕ → List Char → List Char
  | _, [] => []
  | Nat.succ k, _ :: rest => removeSubGo pat k rest
  | 0, c :: rest =>
      if pat.isPrefixOf (c :: rest) ∧ 0 < pat.length then
        removeSubGo pat (pat.length - 1) rest
      else c :: removeSubGo pat 0 rest

/-- Python `str.replace(pat, '')`: scan left to right; on a match of
`pat`, drop it and continue scanning after the removed occurrence. -/
def removeSub (pat : List Char) (s : List Char) : List Char :=
  removeSubGo pat 0 s

/-- The cleaning applied to every price text (lines 58, 65, 72):
`.replace('$', '').replace(',', '').replace(' USD', '')`. -/
def cleanChars (s : List Char) : List Char :=
  removeSub [' ', 'U', 'S', 'D'] (removeSub [','] (removeSub ['$'] s))

/-- Value of a digit character. -/
def digVal (c : Char) : ℕ := c.toNat - '0'.toNat

/-- The natural number denoted by a digit string. -/
def digitsToNat (l : List Char) : ℕ := l.foldl (fun a c => 10 * a + digVal c) 0

/-- Split a character list at its first '.', if any. -/
def splitDot : List Char → List Char × Option (List Char)
  | [] => ([], Option.none)
  | c :: rest =>
      if c = '.' then ([], some rest)
      else
        let (a, b) := splitDot rest
        (c :: a, b)

/-- Unsigned part of Python `float()`: digits with at most one decimal
point and at least one digit overall (a second '.' fails the digit test
of the fractional part). -/
def parseUnsigned (l : List Char) : Option ℚ :=
  match splitDot l with
  | (intPart, Option.none) =>
      if intPart ≠ [] ∧ intPart.all Char.isDigit then some (digitsToNat intPart : ℚ)
      else Option.none
  | (intPart, some fracPart) =>
      if (intPart ≠ [] ∨ fracPart ≠ []) ∧ intPart.all Char.isDigit
          ∧ fracPart.all Char.isDigit then
        some ((digitsToNat intPart : ℚ)
          + (digitsToNat fracPart : ℚ) / (10 : ℚ) ^ fracPart.length)
      else Option.none

/-- Python's builtin `float(text)` (an external capability), modelled on
the decimal forms price texts take: surrounding whitespace, an optional
sign, digits with at most one decimal point. Exponent, inf/nan and
underscore forms are outside the model; any text outside the grammar
yields `none` (a `ValueError` in Python). -/
def pyFloat (l : List Char) : Option ℚ :=
  let t := ((l.dropWhile Char.isWhitespace).reverse.dropWhile Char.isWhitespace).reverse
  match t with
  | '+' :: r => parseUnsigned r
  | '-' :: r => (parseUnsigned r).map (fun q => -q)
  | r => parseUnsigned r

/-- One price field's parse (lines 58, 65, 72): clean the text, then
`float(...)`; `none` is the swallowed `ValueError` of the `try/except`. -/
def parsePrice (s : String) : Option ℚ :=
  pyFloat (cleanChars s.toList)

/-- Lines 80–85: the record stored for one product; `effective_price` is
`sale_price if sale_price is not None else regular_price` (line 78). -/
def mkRecord (name : String) (regular_price sale_price : Option ℚ) : PriceRecord :=
  { name := name
    regular_price := regular_price
    sale_price := sale_price
    effective_price :=
      match sale_price with
      | some s => some s
      | Option.none => regular_price }

/-- Lines 52–74: with a sale element present, `sale_price` parses its
text and `regular_price` parses the companion regular element if any;
with no sale element, only the generic price element is read. Returns
`(sale_price, regular_price)`. -/
def itemPrices (item : Item) : Option ℚ × Option ℚ :=
  match item.sale_element with
  | some t => (parsePrice t, item.reg_element.bind (fun r => parsePrice r))
  | Option.none => (Option.none, item.reg_element_gen.bind (fun r => parsePrice r))

/-- Lines 44–85: one loop iteration; entries without a name are skipped,
otherwise the record is stored under the name. -/
def processItem (acc : Snapshot) (item : Item) : Snapshot :=
  match item.name_element with
  | Option.none => acc
  | some name =>
      dictInsert name (mkRecord name (itemPrices item).2 (itemPrices item).1) acc

/-- The function `fetch_current_data()` (lines 21–87) from the parsed product items. -/
def fetch_current_data (items : List Item) : Snapshot :=
  items.foldl processItem []

/-- Line 78: `effective_price = sale_price if sale_price is not None
else regular_price`, as a record invariant. -/
def effInv (r : PriceRecord) : Prop :=
  r.effective_price =
    match r.sale_price with
    | some s => some s
    | Option.none => r.regular_price

/-- Outcome of one `send_email` call: credentials missing (lines
124–126), SMTP delivery succeeded, or the attempt raised and was caught
(lines 136–145). `send_email` never raises past itself. -/
inductive EmailOutcome where
  | skipped
  | sent
  | failed
  deriving DecidableEq, Repr

/-- Python falsiness of `os.environ.get(...)`: unset (`None`) or the
empty string (line 124's `not SENDER_EMAIL` etc.). -/
def credMissing : Option String → Bool
  | Option.none => true
  | some s => s.isEmpty

/-- The function `send_email(changes)` (lines 123–145); `smtp_ok` stands for the
external SMTP session succeeding. The message content does not influence
the outcome. -/
def send_email (sender_email sender_password receiver_email : Option String)
    (smtp_ok : Bool) : EmailOutcome :=
  if credMissing sender_email || credMissing sender_password
      || credMissing receiver_email then
    EmailOutcome.skipped
  else if smtp_ok then EmailOutcome.sent
  else EmailOutcome.failed

/-- Observable effects of one `main'()` run: the argument `send_email`
was called with (if called), the outcome of that call, and the snapshot
written to `DATA_FILE` (if written). -/
structure RunResult where
  email_called : Option (List ChangeRecord)
  email_outcome : Option EmailOutcome
  saved : Option Snapshot
  deriving DecidableEq, Repr

/-- The function `main()` (lines 147–171): abort when the fetch came back empty;
otherwise diff, and on a non-empty change list notify and then
unconditionally save the current snapshot. -/
def main' (fetched stored : Snapshot)
    (sender_email sender_password receiver_email : Option String)
    (smtp_ok : Bool) : RunResult :=
  if fetched.isEmpty then ⟨Option.none, Option.none, Option.none⟩
  else
    let changes := compare_data stored fetched
    if changes.isEmpty then ⟨Option.none, Option.none, Option.none⟩
    else
      ⟨some changes,
       some (send_email sender_email sender_password receiver_email smtp_ok),
       some fetched⟩

/-- JSON values, restricted to the shapes the snapshot file contains. -/
inductive Jval where
  | null
  | num (q : ℚ)
  | str (s : String)
  | obj (fields : List (String × Jval))

/-- An optional price as a JSON value (`None` serializes to `null`). -/
def encPrice : Option ℚ → Jval
  | Option.none => Jval.null
  | some q => Jval.num q

/-- One record as the JSON object `json.dump` writes for it. -/
def encodeRecord (r : PriceRecord) : Jval :=
  Jval.obj [("name", Jval.str r.name),
    ("regular_price", encPrice r.regular_price),
    ("sale_price", encPrice r.sale_price),
    ("effective_price", encPrice r.effective_price)]

/-- A snapshot as the JSON object `json.dump(current_data, f, indent=4)`
writes (line 168); key order is the dict's insertion order. -/
def encodeSnapshot (S : Snapshot) : Jval :=
  Jval.obj (S.map (fun p => (p.1, encodeRecord p.2)))

/-- Read an optional price back from a JSON value. -/
def decPrice : Jval → Option (Option ℚ)
  | Jval.null => some Option.none
  | Jval.num q => some (some q)
  | _ => Option.none

/-- Read one record back from its JSON object. -/
def decodeRecord (j : Jval) : Option PriceRecord :=
  match j with
  | Jval.obj fields =>
      match alookup "name" fields,
          (alookup "regular_price" fields).bind decPrice,
          (alookup "sale_price" fields).bind decPrice,
          (alookup "effective_price" fields).bind decPrice with
      | some (Jval.str n), some rp, some sp, some ep => some ⟨n, rp, sp, ep⟩
      | _, _, _, _ => Option.none
  | _ => Option.none

/-- Read the entries of the top-level JSON object back, in file order. -/
def decodeEntries : List (String × Jval) → Option Snapshot
  | [] => some []
  | (k, j) :: rest =>
      match decodeRecord j, decodeEntries rest with
      | some r, some s => some ((k, r) :: s)
      | _, _ => Option.none

/-- The function `load_previous_data()` (lines 89–93) on a present file: parse the
stored JSON tree back into a snapshot. -/
def decodeSnapshot : Jval → Option Snapshot
  | Jval.obj l => decodeEntries l
  | _ => Option.none

/-- A raw field value: Python `None`, a float, or a string. -/
inductive PVal where
  | none
  | num (q : ℚ)
  | str (s : String)
  deriving DecidableEq, Repr

/-- A raw record: a dict from field name to value. -/
abbrev RawRecord := List (String × PVal)

/-- A raw snapshot: a dict from product name to raw record. -/
abbrev RawSnapshot := List (String × RawRecord)

/-- Python `data[k]`: `Option.none` is a KeyError. -/
def dindex (d : RawRecord) (k : String) : Option PVal :=
  alookup k d

/-- Python `data.get(k)`: a missing key yields `None`. -/
def dget (d : RawRecord) (k : String) : PVal :=
  (alookup k d).getD PVal.none

/-- A change line of the raw embedding (the NEW line interpolates the
raw `data['effective_price']` value, whatever it is). -/
inductive RawChange where
  | New (name : String) (price : PVal)
  | Removed (name : String)
  | PriceChanged (name : String) (old_price new_price : ℚ) (direction : Direction)
  deriving DecidableEq, Repr

/-- Loop 1 (lines 99–101) on raw data: `data['effective_price']` raises
KeyError — result `Option.none` — when a new product's record lacks the
key. -/
def rawNewLoop (old_data : RawSnapshot) : RawSnapshot → Option (List RawChange)
  | [] => some []
  | (name, data) :: rest =>
      match alookup name old_data with
      | some _ => rawNewLoop old_data rest
      | Option.none =>
          match dindex data "effective_price" with
          | Option.none => Option.none
          | some v => (rawNewLoop old_data rest).map (fun l => RawChange.New name v :: l)

/-- Loop 2 (lines 104–106) on raw data: reads no record field, so it
cannot fail. -/
def rawRemovedLoop (new_data old_data : RawSnapshot) : List RawChange :=
  old_data.filterMap (fun p =>
    match alookup p.1 new_data with
    | Option.none => some (RawChange.Removed p.1)
    | some _ => Option.none)

/-- Lines 115–119 for one shared name, on the two `.get` results: skip
when either is `None`; on two floats compare and emit; `!=` on other
value shapes either finds them equal (no line) or reaches the
subtraction `new_price - old_price`, a TypeError (`Option.none`). -/
def rawChangeStep (name : String) (op np : PVal) : Option (Option RawChange) :=
  match op, np with
  | PVal.none, _ => some Option.none
  | _, PVal.none => some Option.none
  | PVal.num a, PVal.num b =>
      if a ≠ b then
        some (some (RawChange.PriceChanged name a b
          (if b - a > 0 then Direction.Up else Direction.Down)))
      else some Option.none
  | PVal.str s, PVal.str t => if s ≠ t then Option.none else some Option.none
  | _, _ => Option.none

/-- Loop 3 (lines 109–119) on raw data: guarded `.get` lookups, so a
missing `effective_price` key on either side is just skipped. -/
def rawChangedLoop (old_data : RawSnapshot) : RawSnapshot → Option (List RawChange)
  | [] => some []
  | (name, data) :: rest =>
      match alookup name old_data with
      | Option.none => rawChangedLoop old_data rest
      | some odr =>
          match rawChangeStep name (dget odr "effective_price")
              (dget data "effective_price") with
          | Option.none => Option.none
          | some Option.none => rawChangedLoop old_data rest
          | some (some c) => (rawChangedLoop old_data rest).map (fun l => c :: l)

/-- The function `compare_data` (lines 95–121) on raw dicts; `Option.none` is an
exception escaping the call. -/
def compare_data_raw (old_data new_data : RawSnapshot) : Option (List RawChange) :=
  match rawNewLoop old_data new_data with
  | Option.none => Option.none
  | some a =>
      match rawChangedLoop old_data new_data with
      | Option.none => Option.none
      | some c => some (a ++ rawRemovedLoop new_data old_data ++ c)

/-- An optional price as the raw value stored in the record dict. -/
def pvalOfPrice : Option ℚ → PVal
  | Option.none => PVal.none
  | some q => PVal.num q

/-- Lines 80–85 as the raw dict literal they construct: always exactly
the four keys. -/
def rawRecordOf (r : PriceRecord) : RawRecord :=
  [("name", PVal.str r.name),
   ("regular_price", pvalOfPrice r.regular_price),
   ("sale_price", pvalOfPrice r.sale_price),
   ("effective_price", pvalOfPrice r.effective_price)]

/-- The function `fetch_current_data()` seen at the raw-dict level. -/
def fetch_current_data_raw (items : List Item) : RawSnapshot :=
  (fetch_current_data items).map (fun p => (p.1, rawRecordOf p.2))

/-- The four keys lines 80–85 always store. -/
def hasAllKeys (d : RawRecord) : Bool :=
  (dindex d "name").isSome && (dindex d "regular_price").isSome
    && (dindex d "sale_price").isSome && (dindex d "effective_price").isSome

/-- A raw `effective_price` value the price loop can always handle:
a float or `None` (which includes a missing key, via `.get`). -/
def numOrNull : PVal → Bool
  | PVal.none => true
  | PVal.num _ => true
  | PVal.str _ => false

/-! ## Theorems -/

example :
    compare_data
      [("Yonex AS-50", ⟨"Yonex AS-50", some 25, none, some 25⟩)]
      [("Yonex AS-50", ⟨"Yonex AS-50", some 20, none, some 20⟩),
       ("Victor Gold", ⟨"Victor Gold", some 15, none, some 15⟩)] =
      [ChangeRecord.New "Victor Gold" (some 15),
       ChangeRecord.PriceChanged "Yonex AS-50" 25 20 Direction.Down] := by
  simp [compare_data, newFor, removedFor, changeFor, alookup]
  norm_num

/-! ### Association-list lemmas (Python dict semantics) -/
theorem alookup_isSome_of_mem {α : Type} {p : String × α}
    {l : List (String × α)} (h : p ∈ l) : (alookup p.1 l).isSome := by
  obtain ⟨k, v⟩ := p
  induction l with
  | nil => cases h
  | cons hd tl ih =>
      obtain ⟨k', v'⟩ := hd
      rcases List.mem_cons.mp h with h | h
      · cases h
        simp [alookup]
      · by_cases hk : k' = k <;> simp [alookup, hk, ih h]

theorem mem_of_alookup_eq_some {α : Type} {k : String} {v : α}
    {l : List (String × α)} (h : alookup k l = some v) : (k, v) ∈ l := by
  induction l with
  | nil => simp [alookup] at h
  | cons hd tl ih =>
      obtain ⟨k', v'⟩ := hd
      by_cases hk : k' = k
      · subst hk
        simp [alookup] at h
        simp [h]
      · simp [alookup, hk] at h
        exact List.mem_cons_of_mem _ (ih h)

theorem alookup_eq_some_of_mem_nodup {α : Type} {k : String} {v : α}
    {l : List (String × α)} (hnd : (l.map Prod.fst).Nodup) (h : (k, v) ∈ l) :
    alookup k l = some v := by
  induction l with
  | nil => cases h
  | cons hd tl ih =>
      obtain ⟨k', v'⟩ := hd
      simp only [List.map_cons, List.nodup_cons] at hnd
      rcases List.mem_cons.mp h with h | h
      · cases h
        simp [alookup]
      · have hk : k' ≠ k := by
          intro hkk
          exact hnd.1 (hkk ▸ (List.mem_map.mpr ⟨(k, v), h, rfl⟩))
        simp [alookup, hk, ih hnd.2 h]

theorem eq_of_mem_alookup_nodup {α : Type} {k : String} {v w : α}
    {l : List (String × α)} (hnd : (l.map Prod.fst).Nodup)
    (hl : alookup k l = some v) (h : (k, w) ∈ l) : w = v := by
  have := alookup_eq_some_of_mem_nodup hnd h
  rw [hl] at this
  exact (Option.some.injEq _ _ ▸ this).symm

theorem newFor_shape {old_data : Snapshot} {p : String × PriceRecord}
    {c : ChangeRecord} (h : newFor old_data p = some c) :
    c = ChangeRecord.New p.1 p.2.effective_price ∧ alookup p.1 old_data = none := by
  unfold newFor at h
  cases ha : alookup p.1 old_data <;> rw [ha] at h <;> simp_all

theorem removedFor_shape {new_data : Snapshot} {p : String × PriceRecord}
    {c : ChangeRecord} (h : removedFor new_data p = some c) :
    c = ChangeRecord.Removed p.1 ∧ alookup p.1 new_data = none := by
  unfold removedFor at h
  cases ha : alookup p.1 new_data <;> rw [ha] at h <;> simp_all

theorem changeFor_shape {old_data : Snapshot} {p : String × PriceRecord}
    {c : ChangeRecord} (h : changeFor old_data p = some c) :
    ∃ od op np, alookup p.1 old_data = some od ∧
      od.effective_price = some op ∧ p.2.effective_price = some np ∧ op ≠ np ∧
      c = ChangeRecord.PriceChanged p.1 op np
            (if np - op > 0 then Direction.Up else Direction.Down) := by
  unfold changeFor at h
  split at h
  · cases h
  · rename_i od ha
    split at h
    · rename_i op np hop hnp
      split at h
      · rename_i hne
        cases h
        exact ⟨od, op, np, ha, hop, hnp, hne, rfl⟩
      · cases h
    · cases h

theorem newFor_class {old_data : Snapshot} {p : String × PriceRecord}
    {c : ChangeRecord} (h : newFor old_data p = some c) :
    isNewRec c = true ∧ isRemovedRec c = false ∧ isChangedRec c = false := by
  obtain ⟨rfl, -⟩ := newFor_shape h
  exact ⟨rfl, rfl, rfl⟩

theorem removedFor_class {new_data : Snapshot} {p : String × PriceRecord}
    {c : ChangeRecord} (h : removedFor new_data p = some c) :
    isNewRec c = false ∧ isRemovedRec c = true ∧ isChangedRec c = false := by
  obtain ⟨rfl, -⟩ := removedFor_shape h
  exact ⟨rfl, rfl, rfl⟩

theorem changeFor_class {old_data : Snapshot} {p : String × PriceRecord}
    {c : ChangeRecord} (h : changeFor old_data p = some c) :
    isNewRec c = false ∧ isRemovedRec c = false ∧ isChangedRec c = true := by
  obtain ⟨od, op, np, -, -, -, -, rfl⟩ := changeFor_shape h
  exact ⟨rfl, rfl, rfl⟩

/-! ### The product names each loop emits, in iteration order -/
theorem map_changeName_newFor (old_data l : Snapshot) :
    (l.filterMap (newFor old_data)).map changeName
      = (l.filter (fun p => (alookup p.1 old_data).isNone)).map Prod.fst := by
  induction l with
  | nil => rfl
  | cons p rest ih =>
      cases ha : alookup p.1 old_data <;>
        simp [List.filterMap_cons, newFor, ha, changeName, ih]

theorem map_changeName_removedFor (new_data l : Snapshot) :
    (l.filterMap (removedFor new_data)).map changeName
      = (l.filter (fun p => (alookup p.1 new_data).isNone)).map Prod.fst := by
  induction l with
  | nil => rfl
  | cons p rest ih =>
      cases ha : alookup p.1 new_data <;>
        simp [List.filterMap_cons, removedFor, ha, changeName, ih]

theorem map_changeName_changeFor (old_data l : Snapshot) :
    (l.filterMap (changeFor old_data)).map changeName
      = (l.filter (fun p => (changeFor old_data p).isSome)).map Prod.fst := by
  induction l with
  | nil => rfl
  | cons p rest ih =>
      cases hc : changeFor old_data p
      · simp [List.filterMap_cons, hc, ih]
      · rename_i c
        obtain ⟨od, op, np, -, -, -, -, rfl⟩ := changeFor_shape hc
        simp [List.filterMap_cons, hc, ih, changeName]

/-- A list all of whose members are NEW lines keeps everything under
`filter isNewRec` and loses everything under the other two class filters. -/
theorem filter_classes_of_all {l : List ChangeRecord} {f g h : ChangeRecord → Bool}
    (hl : ∀ c ∈ l, f c = true ∧ g c = false ∧ h c = false) :
    l.filter f = l ∧ l.filter g = [] ∧ l.filter h = [] :=
  ⟨List.filter_eq_self.mpr (fun c hc => (hl c hc).1),
   List.filter_eq_nil_iff.mpr (fun c hc => by simp [(hl c hc).2.1]),
   List.filter_eq_nil_iff.mpr (fun c hc => by simp [(hl c hc).2.2])⟩

/-- C3: the output of `compare_data(old, new)` is all NEW lines, then all
REMOVED lines, then all price-change lines; within each class the names
appear in the iteration order of the snapshot that loop iterates
(`new_data` for NEW and price changes, `old_data` for REMOVED). -/
theorem compare_data_ordering_spec (old_data new_data : Snapshot) :
    ((compare_data old_data new_data).filter isNewRec
        ++ (compare_data old_data new_data).filter isRemovedRec
        ++ (compare_data old_data new_data).filter isChangedRec
      = compare_data old_data new_data)
    ∧ ((compare_data old_data new_data).filter isNewRec).map changeName
        = (new_data.filter (fun p => (alookup p.1 old_data).isNone)).map Prod.fst
    ∧ ((compare_data old_data new_data).filter isRemovedRec).map changeName
        = (old_data.filter (fun p => (alookup p.1 new_data).isNone)).map Prod.fst
    ∧ ((compare_data old_data new_data).filter isChangedRec).map changeName
        = (new_data.filter (fun p => (changeFor old_data p).isSome)).map Prod.fst := by
  have hA : ∀ c ∈ new_data.filterMap (newFor old_data),
      isNewRec c = true ∧ isRemovedRec c = false ∧ isChangedRec c = false := by
    intro c hc
    obtain ⟨p, -, hf⟩ := List.mem_filterMap.mp hc
    exact newFor_class hf
  have hB : ∀ c ∈ old_data.filterMap (removedFor new_data),
      isRemovedRec c = true ∧ isNewRec c = false ∧ isChangedRec c = false := by
    intro c hc
    obtain ⟨p, -, hf⟩ := List.mem_filterMap.mp hc
    obtain ⟨h1, h2, h3⟩ := removedFor_class hf
    exact ⟨h2, h1, h3⟩
  have hC : ∀ c ∈ new_data.filterMap (changeFor old_data),
      isChangedRec c = true ∧ isNewRec c = false ∧ isRemovedRec c = false := by
    intro c hc
    obtain ⟨p, -, hf⟩ := List.mem_filterMap.mp hc
    obtain ⟨h1, h2, h3⟩ := changeFor_class hf
    exact ⟨h3, h1, h2⟩
  obtain ⟨a1, a2, a3⟩ := filter_classes_of_all hA
  obtain ⟨b1, b2, b3⟩ := filter_classes_of_all hB
  obtain ⟨c1, c2, c3⟩ := filter_classes_of_all hC
  refine ⟨?_, ?_, ?_, ?_⟩
  · simp only [compare_data, List.filter_append, a1, a2, a3, b1, b2, b3, c1, c2, c3,
      List.append_nil, List.nil_append]
  · simp only [compare_data, List.filter_append, a1, b2, c2,
      List.append_nil, List.nil_append]
    exact map_changeName_newFor old_data new_data
  · simp only [compare_data, List.filter_append, a2, b1, c3,
      List.append_nil, List.nil_append]
    exact map_changeName_removedFor new_data old_data
  · simp only [compare_data, List.filter_append, a3, b3, c1,
      List.append_nil, List.nil_append]
    exact map_changeName_changeFor old_data new_data

/-- C4: diffing a snapshot against itself yields no changes. -/
theorem compare_data_self_empty (S : Snapshot) (h : (S.map Prod.fst).Nodup) :
    compare_data S S = [] := by
  have hA : S.filterMap (newFor S) = [] := by
    refine List.filterMap_eq_nil_iff.mpr (fun p hp => ?_)
    obtain ⟨v, hv⟩ := Option.isSome_iff_exists.mp (alookup_isSome_of_mem hp)
    simp [newFor, hv]
  have hB : S.filterMap (removedFor S) = [] := by
    refine List.filterMap_eq_nil_iff.mpr (fun p hp => ?_)
    obtain ⟨v, hv⟩ := Option.isSome_iff_exists.mp (alookup_isSome_of_mem hp)
    simp [removedFor, hv]
  have hC : S.filterMap (changeFor S) = [] := by
    refine List.filterMap_eq_nil_iff.mpr (fun p hp => ?_)
    have hv : alookup p.1 S = some p.2 := by
      refine alookup_eq_some_of_mem_nodup h ?_
      rw [Prod.mk.eta]
      exact hp
    cases he : p.2.effective_price <;> simp [changeFor, hv, he]
  simp [compare_data, hA, hB, hC]

/-- Witness for C4 at a concrete one-product snapshot. -/
theorem compare_data_self_empty_witness :
    ((sampleOld.map Prod.fst).Nodup) ∧ compare_data sampleOld sampleOld = [] :=
  ⟨by simp [sampleOld], compare_data_self_empty sampleOld (by simp [sampleOld])⟩

/-! ### Membership in the output of compare_data -/
theorem priceChanged_mem_iff {old_data new_data : Snapshot} {n : String}
    {nd : PriceRecord} {a b : ℚ} {d : Direction}
    (hnn : (new_data.map Prod.fst).Nodup) (hn : alookup n new_data = some nd) :
    ChangeRecord.PriceChanged n a b d ∈ compare_data old_data new_data ↔
      changeFor old_data (n, nd) = some (ChangeRecord.PriceChanged n a b d) := by
  constructor
  · intro h
    simp only [compare_data, List.mem_append, List.mem_filterMap] at h
    rcases h with (⟨p, -, hf⟩ | ⟨p, -, hf⟩) | ⟨p, hp, hf⟩
    · obtain ⟨heq, -⟩ := newFor_shape hf
      cases heq
    · obtain ⟨heq, -⟩ := removedFor_shape hf
      cases heq
    · obtain ⟨od, op, np, ha, hop, hnp, hne, heq⟩ := changeFor_shape hf
      injection heq with h1 h2 h3 h4
      have hp1 : (n, p.2) ∈ new_data := by
        rw [h1, Prod.mk.eta]
        exact hp
      have hp2 : p.2 = nd := eq_of_mem_alookup_nodup hnn hn hp1
      have hpe : (n, nd) = p := Prod.ext_iff.mpr ⟨h1, hp2.symm⟩
      rw [hpe]
      exact hf
  · intro h
    simp only [compare_data, List.mem_append, List.mem_filterMap]
    exact Or.inr ⟨(n, nd), mem_of_alookup_eq_some hn, h⟩

/-- C1: for a name present in both snapshots, when both effective prices
are non-null a price-change line exists iff the prices differ (with the
direction determined by the sign of `new - old`); when either side's
effective price is null, no price-change line is emitted for that name. -/
theorem compare_data_price_change_spec (old_data new_data : Snapshot) (n : String)
    (od nd : PriceRecord) (hnn : (new_data.map Prod.fst).Nodup)
    (ho : alookup n old_data = some od) (hn : alookup n new_data = some nd) :
    (∀ op np, od.effective_price = some op → nd.effective_price = some np →
      ∀ a b d, (ChangeRecord.PriceChanged n a b d ∈ compare_data old_data new_data ↔
        op ≠ np ∧ a = op ∧ b = np ∧
          d = (if np - op > 0 then Direction.Up else Direction.Down)))
    ∧ ((od.effective_price = none ∨ nd.effective_price = none) →
        ∀ a b d, ChangeRecord.PriceChanged n a b d ∉ compare_data old_data new_data) := by
  constructor
  · intro op np hop hnp a b d
    rw [priceChanged_mem_iff hnn hn]
    unfold changeFor
    simp only [ho, hop, hnp]
    by_cases hne : op = np
    · subst hne
      simp
    · have hne' : op ≠ np := hne
      rw [if_pos hne']
      simp only [Option.some.injEq, ChangeRecord.PriceChanged.injEq]
      constructor
      · rintro ⟨-, h1, h2, h3⟩
        exact ⟨hne, h1.symm, h2.symm, h3.symm⟩
      · rintro ⟨-, h1, h2, h3⟩
        exact ⟨trivial, h1.symm, h2.symm, h3.symm⟩
  · intro hnull a b d
    rw [priceChanged_mem_iff hnn hn]
    unfold changeFor
    cases h1 : od.effective_price <;> cases h2 : nd.effective_price <;>
      simp [ho, h1, h2] at hnull ⊢

/-- Witness for C1: the sample snapshots share "Yonex AS-50", whose
effective price drops from 25 to 20, and the output contains the
corresponding DOWN line. -/
theorem compare_data_price_change_spec_witness :
    ChangeRecord.PriceChanged "Yonex AS-50" 25 20 Direction.Down
      ∈ compare_data sampleOld sampleNew := by
  have h := compare_data_price_change_spec sampleOld sampleNew "Yonex AS-50"
      ⟨"Yonex AS-50", some 25, none, some 25⟩ ⟨"Yonex AS-50", some 25, some 20, some 20⟩
      (by simp [sampleNew]) (by simp [sampleOld, alookup]) (by simp [sampleNew, alookup])
  exact (h.1 25 20 rfl rfl 25 20 Direction.Down).mpr
    ⟨by norm_num, rfl, rfl, by norm_num⟩

theorem mem_new_lookup {old_data new_data : Snapshot} {n : String} {q : Option ℚ}
    (h : ChangeRecord.New n q ∈ compare_data old_data new_data) :
    alookup n old_data = none ∧ (alookup n new_data).isSome := by
  simp only [compare_data, List.mem_append, List.mem_filterMap] at h
  rcases h with (⟨p, hp, hf⟩ | ⟨p, -, hf⟩) | ⟨p, -, hf⟩
  · obtain ⟨heq, hnone⟩ := newFor_shape hf
    injection heq with h1 h2
    rw [h1]
    exact ⟨hnone, alookup_isSome_of_mem hp⟩
  · obtain ⟨heq, -⟩ := removedFor_shape hf
    cases heq
  · obtain ⟨od, op, np, -, -, -, -, heq⟩ := changeFor_shape hf
    cases heq

theorem mem_removed_lookup {old_data new_data : Snapshot} {n : String}
    (h : ChangeRecord.Removed n ∈ compare_data old_data new_data) :
    (alookup n old_data).isSome ∧ alookup n new_data = none := by
  simp only [compare_data, List.mem_append, List.mem_filterMap] at h
  rcases h with (⟨p, -, hf⟩ | ⟨p, hp, hf⟩) | ⟨p, -, hf⟩
  · obtain ⟨heq, -⟩ := newFor_shape hf
    cases heq
  · obtain ⟨heq, hnone⟩ := removedFor_shape hf
    injection heq with h1
    rw [h1]
    exact ⟨alookup_isSome_of_mem hp, hnone⟩
  · obtain ⟨od, op, np, -, -, -, -, heq⟩ := changeFor_shape hf
    cases heq

theorem mem_changed_lookup {old_data new_data : Snapshot} {n : String}
    {a b : ℚ} {d : Direction}
    (h : ChangeRecord.PriceChanged n a b d ∈ compare_data old_data new_data) :
    (alookup n old_data).isSome ∧ (alookup n new_data).isSome := by
  simp only [compare_data, List.mem_append, List.mem_filterMap] at h
  rcases h with (⟨p, -, hf⟩ | ⟨p, -, hf⟩) | ⟨p, hp, hf⟩
  · obtain ⟨heq, -⟩ := newFor_shape hf
    cases heq
  · obtain ⟨heq, -⟩ := removedFor_shape hf
    cases heq
  · obtain ⟨od, op, np, ha, -, -, -, heq⟩ := changeFor_shape hf
    injection heq with h1 h2 h3 h4
    rw [h1]
    refine ⟨?_, alookup_isSome_of_mem hp⟩
    rw [ha]
    rfl

/-! ### Counting the lines a keyed loop emits for one name -/
theorem filter_name_nil_of_not_mem {f : String × PriceRecord → Option ChangeRecord}
    {l : Snapshot} {n : String}
    (hname : ∀ p c, f p = some c → changeName c = p.1)
    (hnot : n ∉ l.map Prod.fst) :
    (l.filterMap f).filter (fun c => changeName c == n) = [] := by
  refine List.filter_eq_nil_iff.mpr (fun c hc => ?_)
  obtain ⟨p, hp, hf⟩ := List.mem_filterMap.mp hc
  rw [hname p c hf]
  simp only [beq_iff_eq]
  intro h
  exact hnot (h ▸ List.mem_map.mpr ⟨p, hp, rfl⟩)

theorem length_filter_name_filterMap {f : String × PriceRecord → Option ChangeRecord}
    {l : Snapshot} {n : String}
    (hname : ∀ p c, f p = some c → changeName c = p.1)
    (hl : (l.map Prod.fst).Nodup)
    (hhit : ∀ v, alookup n l = some v → (f (n, v)).isSome)
    (hsome : (alookup n l).isSome) :
    ((l.filterMap f).filter (fun c => changeName c == n)).length = 1 := by
  induction l with
  | nil => simp [alookup] at hsome
  | cons hd rest ih =>
      obtain ⟨k, v⟩ := hd
      simp only [List.map_cons, List.nodup_cons] at hl
      by_cases hk : k = n
      · subst hk
        obtain ⟨c, hc⟩ := Option.isSome_iff_exists.mp (hhit v (by simp [alookup]))
        have hrest : (rest.filterMap f).filter (fun c => changeName c == k) = [] :=
          filter_name_nil_of_not_mem hname hl.1
        simp [List.filterMap_cons, hc, hname _ _ hc, hrest]
      · have hstep : alookup n ((k, v) :: rest) = alookup n rest := by
          simp [alookup, hk]
        rw [hstep] at hsome
        have hhit' : ∀ w, alookup n rest = some w → (f (n, w)).isSome := by
          intro w hw
          exact hhit w (by rw [hstep]; exact hw)
        cases hfc : f (k, v)
        · simp only [List.filterMap_cons, hfc]
          exact ih hl.2 hhit' hsome
        · rename_i c
          have hcn : (changeName c == n) = false := by
            rw [hname _ _ hfc]
            exact beq_eq_false_iff_ne.mpr hk
          simp only [List.filterMap_cons, hfc, List.filter_cons, hcn,
            Bool.false_eq_true, if_false]
          exact ih hl.2 hhit' hsome

theorem newFor_name {old_data : Snapshot} (p : String × PriceRecord)
    (c : ChangeRecord) (h : newFor old_data p = some c) : changeName c = p.1 := by
  obtain ⟨rfl, -⟩ := newFor_shape h
  rfl

theorem removedFor_name {new_data : Snapshot} (p : String × PriceRecord)
    (c : ChangeRecord) (h : removedFor new_data p = some c) : changeName c = p.1 := by
  obtain ⟨rfl, -⟩ := removedFor_shape h
  rfl

theorem changeFor_name {old_data : Snapshot} (p : String × PriceRecord)
    (c : ChangeRecord) (h : changeFor old_data p = some c) : changeName c = p.1 := by
  obtain ⟨od, op, np, -, -, -, -, rfl⟩ := changeFor_shape h
  rfl

/-- C2: each name of `new_data` missing from `old_data` yields exactly one
NEW line, each name of `old_data` missing from `new_data` yields exactly
one REMOVED line, and the names carried by NEW, REMOVED and price-change
lines are pairwise disjoint. -/
theorem compare_data_new_removed_spec (old_data new_data : Snapshot)
    (hno : (old_data.map Prod.fst).Nodup) (hnn : (new_data.map Prod.fst).Nodup) :
    (∀ n, (alookup n new_data).isSome → alookup n old_data = none →
      ((compare_data old_data new_data).filter
          (fun c => isNewRec c && (changeName c == n))).length = 1)
    ∧ (∀ n, (alookup n old_data).isSome → alookup n new_data = none →
      ((compare_data old_data new_data).filter
          (fun c => isRemovedRec c && (changeName c == n))).length = 1)
    ∧ (∀ n q, ChangeRecord.New n q ∈ compare_data old_data new_data →
        (ChangeRecord.Removed n ∉ compare_data old_data new_data
          ∧ ∀ a b d, ChangeRecord.PriceChanged n a b d ∉ compare_data old_data new_data))
    ∧ (∀ n, ChangeRecord.Removed n ∈ compare_data old_data new_data →
        ∀ a b d, ChangeRecord.PriceChanged n a b d ∉ compare_data old_data new_data) := by
  refine ⟨?_, ?_, ?_, ?_⟩
  · intro n hsome hnone
    have hB : (old_data.filterMap (removedFor new_data)).filter
        (fun c => isNewRec c && (changeName c == n)) = [] := by
      refine List.filter_eq_nil_iff.mpr (fun c hc => ?_)
      obtain ⟨p, -, hf⟩ := List.mem_filterMap.mp hc
      obtain ⟨h1, -, -⟩ := removedFor_class hf
      simp [h1]
    have hC : (new_data.filterMap (changeFor old_data)).filter
        (fun c => isNewRec c && (changeName c == n)) = [] := by
      refine List.filter_eq_nil_iff.mpr (fun c hc => ?_)
      obtain ⟨p, -, hf⟩ := List.mem_filterMap.mp hc
      obtain ⟨h1, -, -⟩ := changeFor_class hf
      simp [h1]
    have hA : (new_data.filterMap (newFor old_data)).filter
          (fun c => isNewRec c && (changeName c == n))
        = (new_data.filterMap (newFor old_data)).filter
          (fun c => changeName c == n) := by
      refine List.filter_congr (fun c hc => ?_)
      obtain ⟨p, -, hf⟩ := List.mem_filterMap.mp hc
      obtain ⟨h1, -, -⟩ := newFor_class hf
      simp [h1]
    have hcount := @length_filter_name_filterMap (newFor old_data) new_data n
      newFor_name hnn (fun v _ => by simp [newFor, hnone]) hsome
    simp only [compare_data, List.filter_append, List.length_append, hA, hB, hC,
      hcount, List.length_nil]
  · intro n hsome hnone
    have hA : (new_data.filterMap (newFor old_data)).filter
        (fun c => isRemovedRec c && (changeName c == n)) = [] := by
      refine List.filter_eq_nil_iff.mpr (fun c hc => ?_)
      obtain ⟨p, -, hf⟩ := List.mem_filterMap.mp hc
      obtain ⟨-, h2, -⟩ := newFor_class hf
      simp [h2]
    have hC : (new_data.filterMap (changeFor old_data)).filter
        (fun c => isRemovedRec c && (changeName c == n)) = [] := by
      refine List.filter_eq_nil_iff.mpr (fun c hc => ?_)
      obtain ⟨p, -, hf⟩ := List.mem_filterMap.mp hc
      obtain ⟨-, h2, -⟩ := changeFor_class hf
      simp [h2]
    have hB : (old_data.filterMap (removedFor new_data)).filter
          (fun c => isRemovedRec c && (changeName c == n))
        = (old_data.filterMap (removedFor new_data)).filter
          (fun c => changeName c == n) := by
      refine List.filter_congr (fun c hc => ?_)
      obtain ⟨p, -, hf⟩ := List.mem_filterMap.mp hc
      obtain ⟨-, h2, -⟩ := removedFor_class hf
      simp [h2]
    have hcount := @length_filter_name_filterMap (removedFor new_data) old_data n
      removedFor_name hno (fun v _ => by simp [removedFor, hnone]) hsome
    simp only [compare_data, List.filter_append, List.length_append, hA, hB, hC,
      hcount, List.length_nil]
  · intro n q hNew
    obtain ⟨hnone, -⟩ := mem_new_lookup hNew
    constructor
    · intro hRem
      obtain ⟨hsome, -⟩ := mem_removed_lookup hRem
      rw [hnone] at hsome
      cases hsome
    · intro a b d hPc
      obtain ⟨hsome, -⟩ := mem_changed_lookup hPc
      rw [hnone] at hsome
      cases hsome
  · intro n hRem a b d hPc
    obtain ⟨-, hnone⟩ := mem_removed_lookup hRem
    obtain ⟨-, hsome⟩ := mem_changed_lookup hPc
    rw [hnone] at hsome
    cases hsome

/-- Witness for C2: "Victor Gold" is present only in the new sample
snapshot and gets exactly one NEW line. -/
theorem compare_data_new_removed_spec_witness :
    ((compare_data sampleOld sampleNew).filter
        (fun c => isNewRec c && (changeName c == "Victor Gold"))).length = 1 :=
  (compare_data_new_removed_spec sampleOld sampleNew
      (by simp [sampleOld]) (by simp [sampleNew])).1 "Victor Gold"
    (by simp [sampleNew, alookup]) (by simp [sampleOld, alookup])

/-! ### Properties of the price-text cleaning -/
theorem mem_of_mem_removeSubGo (pat : List Char) :
    ∀ (skip : ℕ) (s : List Char) (x : Char), x ∈ removeSubGo pat skip s → x ∈ s := by
  intro skip s
  induction s generalizing skip with
  | nil =>
      intro x hx
      simp [removeSubGo] at hx
  | cons c rest ih =>
      intro x hx
      cases skip with
      | succ k =>
          rw [removeSubGo] at hx
          exact List.mem_cons_of_mem _ (ih k x hx)
      | zero =>
          rw [removeSubGo] at hx
          by_cases hpre : pat.isPrefixOf (c :: rest) = true ∧ 0 < pat.length
          · rw [if_pos hpre] at hx
            exact List.mem_cons_of_mem _ (ih _ x hx)
          · rw [if_neg hpre] at hx
            rcases List.mem_cons.mp hx with h | h
            · exact h ▸ List.mem_cons_self _ _
            · exact List.mem_cons_of_mem _ (ih 0 x h)

theorem mem_of_mem_removeSub {pat s : List Char} {x : Char}
    (h : x ∈ removeSub pat s) : x ∈ s :=
  mem_of_mem_removeSubGo pat 0 s x h

/-- On a single-character pattern, `str.replace(c, '')` is exactly
"drop every occurrence of `c`". -/
theorem removeSub_single_eq_filter (c : Char) (s : List Char) :
    removeSub [c] s = s.filter (fun x => x != c) := by
  unfold removeSub
  induction s with
  | nil => rfl
  | cons x rest ih =>
      by_cases hx : x = c
      · subst hx
        have hpre : ([x] : List Char).isPrefixOf (x :: rest) = true
            ∧ 0 < ([x] : List Char).length := by
          simp [List.isPrefixOf]
        rw [removeSubGo, if_pos hpre]
        simpa using ih
      · have hpre : ¬(([c] : List Char).isPrefixOf (x :: rest) = true
            ∧ 0 < ([c] : List Char).length) := by
          rintro ⟨h1, -⟩
          simp [List.isPrefixOf] at h1
          exact hx h1.symm
        rw [removeSubGo, if_neg hpre]
        simp [List.filter_cons, hx, ih]

theorem not_mem_cleanChars (s : List Char) :
    '$' ∉ cleanChars s ∧ ',' ∉ cleanChars s := by
  constructor
  · intro h
    unfold cleanChars at h
    have h2 := mem_of_mem_removeSub h
    have h3 := mem_of_mem_removeSub h2
    rw [removeSub_single_eq_filter] at h3
    simp at h3
  · intro h
    unfold cleanChars at h
    have h2 := mem_of_mem_removeSub h
    rw [removeSub_single_eq_filter] at h2
    simp at h2

theorem alookup_dictInsert_self {α : Type} (k : String) (v : α)
    (l : List (String × α)) : alookup k (dictInsert k v l) = some v := by
  induction l with
  | nil => simp [dictInsert, alookup]
  | cons hd rest ih =>
      obtain ⟨k', v'⟩ := hd
      by_cases hk : k' = k
      · subst hk
        simp [dictInsert, alookup]
      · simp [dictInsert, alookup, hk, ih]

theorem mem_dictInsert {α : Type} {k : String} {v : α}
    {l : List (String × α)} {p : String × α} (hp : p ∈ dictInsert k v l) :
    p = (k, v) ∨ p ∈ l := by
  induction l with
  | nil => simpa [dictInsert] using hp
  | cons hd rest ih =>
      obtain ⟨k', v'⟩ := hd
      by_cases hk : k' = k
      · subst hk
        rw [dictInsert, if_pos rfl] at hp
        rcases List.mem_cons.mp hp with h | h
        · exact Or.inl h
        · exact Or.inr (List.mem_cons_of_mem _ h)
      · rw [dictInsert, if_neg hk] at hp
        rcases List.mem_cons.mp hp with h | h
        · exact Or.inr (h ▸ List.mem_cons_self _ _)
        · rcases ih h with h1 | h1
          · exact Or.inl h1
          · exact Or.inr (List.mem_cons_of_mem _ h1)

theorem mkRecord_effInv (n : String) (rp sp : Option ℚ) :
    effInv (mkRecord n rp sp) := rfl

theorem foldl_processItem_effInv (items : List Item) (acc : Snapshot)
    (h : ∀ p ∈ acc, effInv p.2) :
    ∀ p ∈ items.foldl processItem acc, effInv p.2 := by
  induction items generalizing acc with
  | nil => simpa using h
  | cons item rest ih =>
      intro p hp
      refine ih (processItem acc item) ?_ p hp
      intro q hq
      unfold processItem at hq
      cases hne : item.name_element with
      | none =>
          rw [hne] at hq
          exact h q hq
      | some name =>
          rw [hne] at hq
          rcases mem_dictInsert hq with h1 | h1
          · rw [h1]
            exact mkRecord_effInv _ _ _
          · exact h q h1

/-- C5: every record of a fetched snapshot has `effective_price` equal
to `sale_price` when the latter is non-null, else to `regular_price`. -/
theorem fetch_effective_price_invariant (items : List Item)
    (p : String × PriceRecord) (hp : p ∈ fetch_current_data items) :
    (∀ s, p.2.sale_price = some s → p.2.effective_price = some s)
    ∧ (p.2.sale_price = Option.none → p.2.effective_price = p.2.regular_price) := by
  have hinv := foldl_processItem_effInv items [] (by simp) p hp
  unfold effInv at hinv
  constructor
  · intro s hs
    rw [hs] at hinv
    exact hinv
  · intro hs
    rw [hs] at hinv
    exact hinv

/-- Witness for C5 on a one-item catalog with no price elements. -/
theorem fetch_effective_price_invariant_witness :
    (("Plain", (⟨"Plain", Option.none, Option.none, Option.none⟩ : PriceRecord))
        ∈ fetch_current_data [⟨some "Plain", Option.none, Option.none, Option.none⟩])
    ∧ (⟨"Plain", Option.none, Option.none, Option.none⟩ : PriceRecord).effective_price
        = (⟨"Plain", Option.none, Option.none, Option.none⟩ : PriceRecord).regular_price := by
  have hmem : ("Plain", (⟨"Plain", Option.none, Option.none, Option.none⟩ : PriceRecord))
      ∈ fetch_current_data [⟨some "Plain", Option.none, Option.none, Option.none⟩] := by
    simp [fetch_current_data, processItem, itemPrices, mkRecord, dictInsert]
  exact ⟨hmem, (fetch_effective_price_invariant _ _ hmem).2 rfl⟩

/-- C8: price text is cleaned of '$', ',' and ' USD' before `float()`
parsing ('$' and ',' are removed everywhere), and a parse failure only
leaves that one field unset — the entry itself is still stored. -/
theorem fetch_price_cleaning_spec :
    (∀ s : String, parsePrice s = pyFloat (cleanChars s.toList))
    ∧ (∀ s : List Char, '$' ∉ cleanChars s ∧ ',' ∉ cleanChars s)
    ∧ (∀ (acc : Snapshot) (item : Item) (name : String),
        item.name_element = some name →
          alookup name (processItem acc item)
            = some (mkRecord name (itemPrices item).2 (itemPrices item).1))
    ∧ (∀ (acc : Snapshot) (item : Item) (name t : String),
        item.name_element = some name → item.sale_element = some t →
          parsePrice t = Option.none →
            ∃ r, alookup name (processItem acc item) = some r
              ∧ r.sale_price = Option.none ∧ r.name = name) := by
  refine ⟨fun s => rfl, not_mem_cleanChars, ?_, ?_⟩
  · intro acc item name hname
    unfold processItem
    rw [hname]
    exact alookup_dictInsert_self _ _ _
  · intro acc item name t hname hsale hfail
    refine ⟨mkRecord name (itemPrices item).2 (itemPrices item).1, ?_, ?_, rfl⟩
    · unfold processItem
      rw [hname]
      exact alookup_dictInsert_self _ _ _
    · simp [mkRecord, itemPrices, hsale, hfail]

/-- Witness for C8: "Sold out" fails `float()` parsing, yet the entry is
stored with a null `sale_price`. -/
theorem fetch_price_cleaning_spec_witness :
    ∃ r, alookup "OnSale"
        (processItem [] ⟨some "OnSale", some "Sold out", Option.none, Option.none⟩)
        = some r ∧ r.sale_price = Option.none ∧ r.name = "OnSale" :=
  fetch_price_cleaning_spec.2.2.2 []
    ⟨some "OnSale", some "Sold out", Option.none, Option.none⟩
    "OnSale" "Sold out" rfl rfl (by decide)

/-- C6: on an empty fetched snapshot the run aborts — `send_email` is
not called and nothing is written, whatever the stored snapshot,
credentials and SMTP state are. -/
theorem main_aborts_on_empty_fetch (stored : Snapshot)
    (se sp re : Option String) (ok : Bool) :
    (main' [] stored se sp re ok).email_called = Option.none
    ∧ (main' [] stored se sp re ok).saved = Option.none :=
  ⟨rfl, rfl⟩

/-- C7: when the change list is non-empty, `send_email` is called with
it and the fetched snapshot is saved, whatever the credentials and SMTP
outcome; with any credential missing, `send_email` merely skips. -/
theorem main_notifies_then_saves (fetched stored : Snapshot)
    (se sp re : Option String) (ok : Bool)
    (hfetch : fetched ≠ [])
    (hch : compare_data stored fetched ≠ []) :
    (main' fetched stored se sp re ok).email_called
        = some (compare_data stored fetched)
    ∧ (main' fetched stored se sp re ok).saved = some fetched
    ∧ ((credMissing se || credMissing sp || credMissing re) = true →
        send_email se sp re ok = EmailOutcome.skipped) := by
  have h1 : fetched.isEmpty = false := by
    simpa [List.isEmpty_iff] using hfetch
  have h2 : (compare_data stored fetched).isEmpty = false := by
    simpa [List.isEmpty_iff] using hch
  unfold main'
  rw [h1]
  simp only [Bool.false_eq_true, if_false, h2]
  refine ⟨trivial, trivial, fun h => ?_⟩
  unfold send_email
  rw [h]
  rfl

/-- Witness for C7: a first run (empty stored snapshot) over the sample
snapshot, with no credentials set. -/
theorem main_notifies_then_saves_witness :
    (main' sampleOld [] Option.none Option.none Option.none false).email_called
        = some (compare_data [] sampleOld)
    ∧ (main' sampleOld [] Option.none Option.none Option.none false).saved
        = some sampleOld
    ∧ send_email Option.none Option.none Option.none false
        = EmailOutcome.skipped := by
  have h := main_notifies_then_saves sampleOld [] Option.none Option.none Option.none
    false (by simp [sampleOld])
    (by simp [compare_data, newFor, changeFor, removedFor, alookup, sampleOld])
  exact ⟨h.1, h.2.1, h.2.2 (by rfl)⟩

theorem decodeRecord_encodeRecord (r : PriceRecord) :
    decodeRecord (encodeRecord r) = some r := by
  obtain ⟨n, rp, sp, ep⟩ := r
  cases rp <;> cases sp <;> cases ep <;> rfl

/-- C9: persisting a snapshot and loading it back restores every record
exactly — names, both prices and the effective price, nulls included —
so re-serializing the loaded value reproduces the original
serialization. -/
theorem snapshot_roundtrip (S : Snapshot) :
    decodeSnapshot (encodeSnapshot S) = some S
    ∧ (decodeSnapshot (encodeSnapshot S)).map encodeSnapshot
        = some (encodeSnapshot S) := by
  have h : decodeSnapshot (encodeSnapshot S) = some S := by
    induction S with
    | nil => rfl
    | cons p rest ih =>
        obtain ⟨k, r⟩ := p
        simp only [encodeSnapshot, List.map_cons, decodeSnapshot, decodeEntries,
          decodeRecord_encodeRecord]
        simp only [encodeSnapshot, decodeSnapshot] at ih
        rw [ih]
  exact ⟨h, by rw [h]; rfl⟩

theorem rawChangeStep_isSome {name : String} {op np : PVal}
    (h1 : numOrNull op = true) (h2 : numOrNull np = true) :
    (rawChangeStep name op np).isSome := by
  cases op with
  | str s => simp [numOrNull] at h1
  | none => cases np <;> simp [rawChangeStep]
  | num a =>
      cases np with
      | none => simp [rawChangeStep]
      | str t => simp [numOrNull] at h2
      | num b => by_cases hab : a = b <;> simp [rawChangeStep, hab]

theorem rawNewLoop_isSome (old_data : RawSnapshot) :
    ∀ new_data : RawSnapshot,
      (∀ p ∈ new_data, (dindex p.2 "effective_price").isSome) →
        (rawNewLoop old_data new_data).isSome := by
  intro new_data h
  induction new_data with
  | nil => simp [rawNewLoop]
  | cons p rest ih =>
      obtain ⟨name, data⟩ := p
      have hrest := ih (fun q hq => h q (List.mem_cons_of_mem _ hq))
      cases ha : alookup name old_data with
      | some _ => simpa [rawNewLoop, ha] using hrest
      | none =>
          obtain ⟨v, hv⟩ := Option.isSome_iff_exists.mp
            (h (name, data) (List.mem_cons_self _ _))
          obtain ⟨l, hl⟩ := Option.isSome_iff_exists.mp hrest
          simp [rawNewLoop, ha, hv, hl]

theorem rawChangedLoop_isSome (old_data : RawSnapshot)
    (hold : ∀ p ∈ old_data, numOrNull (dget p.2 "effective_price") = true) :
    ∀ new_data : RawSnapshot,
      (∀ p ∈ new_data, numOrNull (dget p.2 "effective_price") = true) →
        (rawChangedLoop old_data new_data).isSome := by
  intro new_data h
  induction new_data with
  | nil => simp [rawChangedLoop]
  | cons p rest ih =>
      obtain ⟨name, data⟩ := p
      have hrest := ih (fun q hq => h q (List.mem_cons_of_mem _ hq))
      obtain ⟨l, hl⟩ := Option.isSome_iff_exists.mp hrest
      cases ha : alookup name old_data with
      | none => simpa [rawChangedLoop, ha] using hrest
      | some odr =>
          have hodr : numOrNull (dget odr "effective_price") = true :=
            hold (name, odr) (mem_of_alookup_eq_some ha)
          have hdata : numOrNull (dget data "effective_price") = true :=
            h (name, data) (List.mem_cons_self _ _)
          obtain ⟨o, ho⟩ := Option.isSome_iff_exists.mp
            (@rawChangeStep_isSome name _ _ hodr hdata)
          cases o with
          | none => simp [rawChangedLoop, ha, ho, hl]
          | some c => simp [rawChangedLoop, ha, ho, hl]

/-- C10: every fetched record carries all four keys, so loop 1's direct
`data['effective_price']` cannot raise on a fetched snapshot; loop 3's
guarded `.get` lookups tolerate missing `effective_price` keys on either
side; and on such well-shaped data `compare_data` as a whole returns
normally. -/
theorem compare_data_key_safety :
    (∀ (items : List Item), ∀ p ∈ fetch_current_data_raw items,
        hasAllKeys p.2 = true)
    ∧ (∀ old_data new_data : RawSnapshot,
        (∀ p ∈ new_data, (dindex p.2 "effective_price").isSome) →
          (rawNewLoop old_data new_data).isSome)
    ∧ (∀ old_data new_data : RawSnapshot,
        (∀ p ∈ old_data, numOrNull (dget p.2 "effective_price") = true) →
        (∀ p ∈ new_data, numOrNull (dget p.2 "effective_price") = true) →
          (rawChangedLoop old_data new_data).isSome)
    ∧ (∀ old_data new_data : RawSnapshot,
        (∀ p ∈ new_data, (dindex p.2 "effective_price").isSome) →
        (∀ p ∈ old_data, numOrNull (dget p.2 "effective_price") = true) →
        (∀ p ∈ new_data, numOrNull (dget p.2 "effective_price") = true) →
          (compare_data_raw old_data new_data).isSome) := by
  refine ⟨?_, ?_, ?_, ?_⟩
  · intro items p hp
    obtain ⟨q, -, hq⟩ := List.mem_map.mp hp
    rw [← hq]
    rfl
  · exact fun old_data new_data h => rawNewLoop_isSome old_data new_data h
  · exact fun old_data new_data h1 h2 => rawChangedLoop_isSome old_data h1 new_data h2
  · intro old_data new_data hidx hold hnew
    obtain ⟨a, ha⟩ := Option.isSome_iff_exists.mp
      (rawNewLoop_isSome old_data new_data hidx)
    obtain ⟨c, hc⟩ := Option.isSome_iff_exists.mp
      (rawChangedLoop_isSome old_data hold new_data hnew)
    simp [compare_data_raw, ha, hc]

/-- Witness for C10: the old snapshot's record for "B" lacks the
`effective_price` key entirely, yet the raw diff returns normally. -/
theorem compare_data_key_safety_witness :
    hasAllKeys (rawRecordOf ⟨"Plain", Option.none, Option.none, Option.none⟩) = true
    ∧ (compare_data_raw
        [("A", [("effective_price", PVal.num 25)]), ("B", [("name", PVal.str "B")])]
        [("A", rawRecordOf ⟨"A", Option.none, Option.none, Option.none⟩)]).isSome := by
  constructor
  · have hp : ("Plain", rawRecordOf ⟨"Plain", Option.none, Option.none, Option.none⟩)
        ∈ fetch_current_data_raw [⟨some "Plain", Option.none, Option.none, Option.none⟩] := by
      simp [fetch_current_data_raw, fetch_current_data, processItem, itemPrices,
        mkRecord, dictInsert]
    exact compare_data_key_safety.1 _ _ hp
  · exact compare_data_key_safety.2.2.2
      [("A", [("effective_price", PVal.num 25)]), ("B", [("name", PVal.str "B")])]
      [("A", rawRecordOf ⟨"A", Option.none, Option.none, Option.none⟩)]
      (by decide) (by decide) (by decide)
